import Mathlib

/-!
Verification of the AXIS log-retrieval pipeline of `unifi-camera-manager`
(`src/unifi_camera_manager/axis_logs.py` and the log models of
`src/unifi_camera_manager/models.py`).

Python strings are modelled as `List Char`; Python `datetime` values are
modelled through an abstract oracle (`DateTimeEnv`) mapping timestamp text to
a totally ordered `Int`, since the `datetime` library is an external
collaborator of the pipeline.  The `tarfile` library boundary of
`get_log_files` is modelled by passing the parse outcome of the payload
(`Except Unit (List TarMember)`) explicitly; UTF-8 replacement decoding is
total, so member contents appear already decoded.
-/

namespace UnifiCam

/-- Python `\s` character class (ASCII range, as used by the log grammar). -/
def pyIsSpace (c : Char) : Bool :=
  c = ' ' || c = '\t' || c = '\n' || c = '\x0d' || c = '\x0b' || c = '\x0c'

/-- Python `\w` character class (ASCII range). -/
def pyIsWord (c : Char) : Bool :=
  c.isAlpha || c.isDigit || c = '_'

/-- Character class `[\w\-]` used for the process-name token. -/
def pyIsWordHyphen (c : Char) : Bool :=
  pyIsWord c || c = '-'

/-- ASCII lower-casing, as `str.lower` acts on the ASCII letters that the
level keywords consist of. -/
def pyLower (c : Char) : Char :=
  if 'A' ≤ c ∧ c ≤ 'Z' then Char.ofNat (c.toNat + 32) else c

/-- Python `str.strip()`: drop leading and trailing whitespace. -/
def pyStrip (cs : List Char) : List Char :=
  ((cs.dropWhile pyIsSpace).reverse.dropWhile pyIsSpace).reverse

/-- Python line-break characters recognised by `str.splitlines`. -/
def isLineBreakChar (c : Char) : Bool :=
  c = '\n' || c = '\x0d' || c = '\x0b' || c = '\x0c' ||
  c = '\x1c' || c = '\x1d' || c = '\x1e' || c = '\x85' ||
  c = '\u2028' || c = '\u2029'

/-- Worker for `pySplitlines`; `acc` holds the current line reversed. -/
def splitlinesGo : List Char → List Char → List (List Char)
  | [], acc => if acc.isEmpty then [] else [acc.reverse]
  | '\x0d' :: '\n' :: rest, acc => acc.reverse :: splitlinesGo rest []
  | c :: rest, acc =>
      if isLineBreakChar c then acc.reverse :: splitlinesGo rest []
      else splitlinesGo rest (c :: acc)

/-- Python `str.splitlines()`. -/
def pySplitlines (cs : List Char) : List (List Char) :=
  splitlinesGo cs []

/-- `LogLevel` enum of `models.py` (RFC5424 severity levels). -/
inductive LogLevel where
  | emergency
  | alert
  | critical
  | error
  | warning
  | notice
  | info
  | debug
deriving DecidableEq, Repr

/-- `LogType` enum of `models.py`. -/
inductive LogType where
  | system
  | access
  | audit
  | all
deriving DecidableEq, Repr

/-- `LogLevel(value)` enum lookup: succeeds exactly on the eight value
strings of the enum. -/
def logLevelOfValue (s : List Char) : Option LogLevel :=
  if s = "emergency".toList then some .emergency
  else if s = "alert".toList then some .alert
  else if s = "critical".toList then some .critical
  else if s = "error".toList then some .error
  else if s = "warning".toList then some .warning
  else if s = "notice".toList then some .notice
  else if s = "info".toList then some .info
  else if s = "debug".toList then some .debug
  else none

/-- `axis_logs._parse_log_level`: lower-case, try the enum constructor,
fall back to the abbreviation table, default `info`. -/
def parse_log_level (s : List Char) : LogLevel :=
  let l := s.map pyLower
  match logLevelOfValue l with
  | some lv => lv
  | none =>
      if l = "warn".toList then .warning
      else if l = "err".toList then .error
      else if l = "crit".toList then .critical
      else if l = "emerg".toList then .emergency
      else .info

/-- `LogEntry.normalize_level` of `models.py`, restricted to its string
branch: look the lower-cased string up in the literal `level_map` dict,
default `info`. -/
def normalize_level (s : List Char) : LogLevel :=
  let l := s.map pyLower
  if l = "emerg".toList then .emergency
  else if l = "alert".toList then .alert
  else if l = "crit".toList then .critical
  else if l = "err".toList then .error
  else if l = "error".toList then .error
  else if l = "warn".toList then .warning
  else if l = "warning".toList then .warning
  else if l = "notice".toList then .notice
  else if l = "info".toList then .info
  else if l = "debug".toList then .debug
  else .info

/-! ### The two log-line regular expressions

`SYSLOG_PATTERN` and `SIMPLE_LOG_PATTERN` of `axis_logs.py` are anchored
patterns whose adjacent sub-expressions draw from disjoint character classes,
so Python's backtracking matcher is deterministic on them; they are modelled
as greedy one-pass parsers over `List Char`. -/

/-- Consume one expected character. -/
def expectChar (c : Char) : List Char → Option (List Char)
  | [] => none
  | x :: xs => if x = c then some xs else none

/-- Consume exactly `k` digit characters (`\d{k}`), returning them and the
rest. -/
def pDigits : Nat → List Char → Option (List Char × List Char)
  | 0, cs => some ([], cs)
  | _ + 1, [] => none
  | k + 1, c :: cs =>
      if c.isDigit then
        match pDigits k cs with
        | some (ds, rest) => some (c :: ds, rest)
        | none => none
      else none

/-- Maximal run of characters satisfying `p` (greedy `X*` for a character
class `X`), returning the run and the rest. -/
def pRun (p : Char → Bool) (cs : List Char) : List Char × List Char :=
  (cs.takeWhile p, cs.dropWhile p)

/-- Optional fractional seconds `(?:\.\d+)?`: greedy, consuming nothing when
the dot is not followed by at least one digit. -/
def matchFrac (cs : List Char) : List Char × List Char :=
  match cs with
  | c :: r =>
      if c = '.' then
        let ds := r.takeWhile Char.isDigit
        if ds.isEmpty then ([], cs) else (c :: ds, r.dropWhile Char.isDigit)
      else ([], cs)
  | [] => ([], cs)

/-- Optional UTC offset `(?:[+-]\d{2}:\d{2})?`: greedy, consuming nothing
unless the full offset shape is present. -/
def matchOffset (cs : List Char) : List Char × List Char :=
  match cs with
  | c :: r =>
      if c = '+' || c = '-' then
        match pDigits 2 r with
        | some (d1, r1) =>
            match r1 with
            | b :: r2 =>
                if b = ':' then
                  match pDigits 2 r2 with
                  | some (d2, r3) => (c :: (d1 ++ ':' :: d2), r3)
                  | none => ([], cs)
                else ([], cs)
            | [] => ([], cs)
        | none => ([], cs)
      else ([], cs)
  | [] => ([], cs)

/-- The `timestamp` group of `SYSLOG_PATTERN`:
`\d{4}-\d{2}-\d{2}T\d{2}:\d{2}:\d{2}(?:\.\d+)?(?:[+-]\d{2}:\d{2})?`.
Returns the captured text and the rest of the input. -/
def matchIsoTimestamp (cs : List Char) : Option (List Char × List Char) := do
  let (y, r) ← pDigits 4 cs
  let r ← expectChar '-' r
  let (mo, r) ← pDigits 2 r
  let r ← expectChar '-' r
  let (d, r) ← pDigits 2 r
  let r ← expectChar 'T' r
  let (h, r) ← pDigits 2 r
  let r ← expectChar ':' r
  let (mi, r) ← pDigits 2 r
  let r ← expectChar ':' r
  let (s, r) ← pDigits 2 r
  let (frac, r) := matchFrac r
  let (off, r) := matchOffset r
  some (y ++ '-' :: mo ++ '-' :: d ++ 'T' :: h ++ ':' :: mi ++ ':' :: s
          ++ frac ++ off, r)

/-- Trailing `(?P<message>.*)$` of both patterns: `.` does not cross a
newline and `$` matches at the end or just before one final newline, so the
tail matches exactly when at most one `\n` remains, at the very end. -/
def matchDotStarEnd (cs : List Char) : Option (List Char) :=
  if cs.contains '\n' then
    if cs.getLast? = some '\n' && !(cs.dropLast.contains '\n') then
      some cs.dropLast
    else none
  else some cs

/-- The optional process clause
`(?:(?P<process>[\w\-]+)(?:\[(?P<pid>\d+)\])?:\s*)?` of `SYSLOG_PATTERN`.
Returns `(process, pid?, rest after the colon and the greedy ws run)` when
the clause matches, `none` when it matches empty. -/
def matchProcClause (cs : List Char) :
    Option (List Char × Option (List Char) × List Char) :=
  let (proc, r1) := pRun pyIsWordHyphen cs
  if proc.isEmpty then none
  else
    match r1 with
    | c :: r2 =>
        if c = ':' then some (proc, none, (pRun pyIsSpace r2).2)
        else if c = '[' then
          let (ds, r3) := pRun Char.isDigit r2
          if ds.isEmpty then none
          else
            match r3 with
            | b :: r4 =>
                if b = ']' then
                  match r4 with
                  | d :: r5 =>
                      if d = ':' then some (proc, some ds, (pRun pyIsSpace r5).2)
                      else none
                  | [] => none
                else none
            | [] => none
        else none
    | [] => none

/-- Named captures of a `SYSLOG_PATTERN` match. -/
structure SyslogGroups where
  timestamp : List Char
  hostname : List Char
  level : List Char
  process : Option (List Char)
  pid : Option (List Char)
  message : List Char
deriving DecidableEq, Repr

/-- `SYSLOG_PATTERN.match(line)`. -/
def syslogMatch (cs : List Char) : Option SyslogGroups := do
  let (ts, r) ← matchIsoTimestamp cs
  let (w1, r) := pRun pyIsSpace r
  if w1.isEmpty then none else do
  let (host, r) := pRun (fun c => !pyIsSpace c) r
  if host.isEmpty then none else do
  let (w2, r) := pRun pyIsSpace r
  if w2.isEmpty then none else do
  let r ← expectChar '[' r
  let (_, r) := pRun pyIsSpace r
  let (lvl, r) := pRun pyIsWord r
  if lvl.isEmpty then none else do
  let (_, r) := pRun pyIsSpace r
  let r ← expectChar ']' r
  let (w3, r) := pRun pyIsSpace r
  if w3.isEmpty then none else do
  match matchProcClause r with
  | some (proc, pid, r') => do
      let msg ← matchDotStarEnd r'
      some ⟨ts, host, lvl, some proc, pid, msg⟩
  | none => do
      let msg ← matchDotStarEnd r
      some ⟨ts, host, lvl, none, none, msg⟩

/-- `SIMPLE_LOG_PATTERN.match(line)`:
`^(?P<timestamp>\d{4}-\d{2}-\d{2}\s+\d{2}:\d{2}:\d{2})\s+(?P<message>.*)$`.
Returns the captured timestamp text and message. -/
def simpleMatch (cs : List Char) : Option (List Char × List Char) := do
  let (y, r) ← pDigits 4 cs
  let r ← expectChar '-' r
  let (mo, r) ← pDigits 2 r
  let r ← expectChar '-' r
  let (d, r) ← pDigits 2 r
  let (w, r) := pRun pyIsSpace r
  if w.isEmpty then none else do
  let (h, r) ← pDigits 2 r
  let r ← expectChar ':' r
  let (mi, r) ← pDigits 2 r
  let r ← expectChar ':' r
  let (s, r) ← pDigits 2 r
  let (w2, r) := pRun pyIsSpace r
  if w2.isEmpty then none else do
  let msg ← matchDotStarEnd r
  some (y ++ '-' :: mo ++ '-' :: d ++ w ++ h ++ ':' :: mi ++ ':' :: s, msg)

/-! ### Log entry construction (`parse_log_line`, `parse_log_content`) -/

/-- `int(digits)` on a nonempty digit string. -/
def digitsToNat (ds : List Char) : Nat :=
  ds.foldl (fun n c => n * 10 + (c.toNat - 48)) 0

/-- Oracle for the external `datetime` library: ISO-8601 parsing
(`datetime.fromisoformat`), `datetime.strptime` with format
`"%Y-%m-%d %H:%M:%S"` (both `none` when they raise `ValueError`), and the
current wall-clock time `datetime.now()`.  Timestamps are abstracted to a
totally ordered `Int`. -/
structure DateTimeEnv where
  fromisoformat : List Char → Option Int
  strptime : List Char → Option Int
  now : Int

/-- `LogEntry` model of `models.py` (log fields only). -/
structure LogEntry where
  timestamp : Int
  hostname : List Char
  level : LogLevel
  process : List Char
  pid : Option Nat
  message : List Char
  raw : List Char
deriving DecidableEq, Repr

/-- `axis_logs.parse_log_line`: strip the line, return `none` when empty,
else try `SYSLOG_PATTERN`, then `SIMPLE_LOG_PATTERN`, then the unparsed
fallback entry.  (`LogEntry(level=...)` receives a `LogLevel` value, which
the `normalize_level` validator returns unchanged.) -/
def parse_log_line (env : DateTimeEnv) (line : List Char) : Option LogEntry :=
  let line := pyStrip line
  if line.isEmpty then none
  else
    match syslogMatch line with
    | some g =>
        some { timestamp := (env.fromisoformat g.timestamp).getD env.now
             , hostname := g.hostname
             , level := parse_log_level g.level
             , process := g.process.getD []
             , pid := g.pid.map digitsToNat
             , message := g.message
             , raw := line }
    | none =>
        match simpleMatch line with
        | some (ts, msg) =>
            some { timestamp := (env.strptime ts).getD env.now
                 , hostname := "unknown".toList
                 , level := .info
                 , process := []
                 , pid := none
                 , message := msg
                 , raw := line }
        | none =>
            some { timestamp := env.now
                 , hostname := "unknown".toList
                 , level := .info
                 , process := []
                 , pid := none
                 , message := line
                 , raw := line }

/-- `axis_logs.parse_log_content`: parse every line, keeping the entries
(`parse_log_line` returns `None` only for blank lines). -/
def parse_log_content (env : DateTimeEnv) (content : List Char) :
    List LogEntry :=
  (pySplitlines content).filterMap (parse_log_line env)

/-! ### Archive extraction (`AxisLogClient.get_log_files`) -/

/-- One member of the parsed tar archive, at the `tarfile` library boundary:
`name`, whether `member.isfile()`, and `some text` when
`extractfile`/`read`/replacement-decode succeed on it (with `text` the
replacement-decoded bytes), `none` when extraction of this member fails. -/
structure TarMember where
  name : List Char
  isFile : Bool
  content : Option (List Char)
deriving DecidableEq, Repr

/-- Python `dict` assignment `d[k] = v`: overwrite in place when the key
exists, append otherwise (insertion order preserved). -/
def dictInsert (k : List Char) (v : List Char)
    (d : List (List Char × List Char)) : List (List Char × List Char) :=
  if d.any (fun kv => kv.1 = k) then
    d.map (fun kv => if kv.1 = k then (k, v) else kv)
  else d ++ [(k, v)]

/-- `AxisLogClient.get_log_files`, from the point where the payload bytes
are in hand: `tarResult` is the outcome of
`tarfile.open(...).getmembers()` on the payload (`Except.error` when the
library raises `TarError`), and `decodedPayload` is the replacement-decoded
whole payload used by the non-tar fallback. -/
def get_log_files (tarResult : Except Unit (List TarMember))
    (decodedPayload : List Char) : List (List Char × List Char) :=
  match tarResult with
  | .ok members =>
      members.foldl
        (fun acc m =>
          if m.isFile then
            match m.content with
            | some text => dictInsert m.name text acc
            | none => acc
          else acc)
        []
  | .error _ => [("serverreport.txt".toList, decodedPayload)]

/-! ### Classification (`AxisLogClient._find_log_content`) -/

/-- `LOG_FILE_PATTERNS` table (`dict.get(log_type, [])` yields `[]` for the
`all` key, which is handled before the lookup). -/
def LOG_FILE_PATTERNS : LogType → List (List Char)
  | .system => ["syslog".toList, "messages".toList, "kern.log".toList]
  | .access => ["access.log".toList, "httpd/access".toList]
  | .audit => ["audit.log".toList, "audit/audit".toList]
  | .all => []

/-- `"\n".join(pieces)`. -/
def joinNL (pieces : List (List Char)) : List Char :=
  List.intercalate ['\n'] pieces

/-- `AxisLogClient._find_log_content`: for `all`, join every value; else
join the contents of the files whose lower-cased name contains some pattern
of the category (the inner `break` makes each file contribute once). -/
def find_log_content (log_files : List (List Char × List Char))
    (log_type : LogType) : List Char :=
  if log_type = .all then joinNL (log_files.map Prod.snd)
  else
    let patterns := LOG_FILE_PATTERNS log_type
    joinNL ((log_files.filter (fun fc =>
      patterns.any (fun p =>
        decide ((p.map pyLower) <:+: (fc.1.map pyLower))))).map Prod.snd)

/-! ### Report assembly (`AxisLogClient.get_logs`, `stream_logs`) -/

/-- Sort key order of `entries.sort(key=lambda e: e.timestamp,
reverse=True)`: `a` may precede `b` when `b.timestamp ≤ a.timestamp`. -/
def tsGE (a b : LogEntry) : Prop := b.timestamp ≤ a.timestamp

instance : DecidableRel tsGE := fun a b => Int.decLe b.timestamp a.timestamp

instance : IsTotal LogEntry tsGE := ⟨fun a b => le_total b.timestamp a.timestamp⟩

instance : IsTrans LogEntry tsGE := ⟨fun _ _ _ h1 h2 => le_trans h2 h1⟩

/-- `entries.sort(key=lambda e: e.timestamp, reverse=True)`: Python's sort
is stable, and with `reverse=True` equal keys keep their original order, so
the result is the unique stable descending sort — insertion sort with
`tsGE`. -/
def sortEntriesDesc (l : List LogEntry) : List LogEntry :=
  l.insertionSort tsGE

/-- Python slice `l[:k]` for an `int` bound `k`: nonnegative `k` keeps the
first `k` elements, negative `k` stops at `max 0 (len + k)`. -/
def pySlice (k : Int) (l : List LogEntry) : List LogEntry :=
  if 0 ≤ k then l.take k.toNat else l.take ((l.length : Int) + k).toNat

/-- `if max_entries: entries = entries[:max_entries]` — `None` and `0` are
falsy and leave the list untouched. -/
def applyMaxEntries (maxEntries : Option Int) (l : List LogEntry) :
    List LogEntry :=
  match maxEntries with
  | none => l
  | some k => if k = 0 then l else pySlice k l

/-- `LogReport` model of `models.py` (log fields only). -/
structure LogReport where
  camera_name : List Char
  camera_address : List Char
  log_type : LogType
  entries : List LogEntry
  total_entries : Int
deriving DecidableEq, Repr

/-- `LogReport` construction including `model_post_init`: a falsy (zero)
`total_entries` — the field default when not supplied — is replaced by
`len(self.entries)`. -/
def mkLogReport (name addr : List Char) (log_type : LogType)
    (entries : List LogEntry) (total : Int) : LogReport :=
  { camera_name := name
  , camera_address := addr
  , log_type := log_type
  , entries := entries
  , total_entries := if total = 0 then (entries.length : Int) else total }

/-- `AxisLogClient.get_logs`, from the point where the extracted
name-to-content mapping is in hand: classify, parse, sort newest first,
truncate, wrap in a `LogReport` (whose `total_entries` is not passed, hence
defaults to `0` and is filled in by `model_post_init`). -/
def get_logs (env : DateTimeEnv) (name addr : List Char)
    (log_files : List (List Char × List Char)) (log_type : LogType)
    (max_entries : Option Int) : LogReport :=
  let content := find_log_content log_files log_type
  let entries := parse_log_content env content
  let sorted := sortEntriesDesc entries
  let limited := applyMaxEntries max_entries sorted
  mkLogReport name addr log_type limited 0

/-- `AxisLogClient.stream_logs`, from the same point: the generator's yields
collected in order — parse each line of the classified content, emitting
each non-`None` entry, with no sort and no truncation. -/
def stream_logs (env : DateTimeEnv)
    (log_files : List (List Char × List Char)) (log_type : LogType) :
    List LogEntry :=
  (pySplitlines (find_log_content log_files log_type)).filterMap
    (parse_log_line env)

/-! ### Shape predicates for the primary grammar

These describe the token family of `SYSLOG_PATTERN`'s components, used to
quantify over lines of the primary grammar's exact shape. -/

/-- A possibly empty whitespace run (`\s*`). -/
abbrev WsRun (w : List Char) : Prop := ∀ c ∈ w, pyIsSpace c = true

/-- A nonempty whitespace run (`\s+`). -/
abbrev WsRun1 (w : List Char) : Prop := w ≠ [] ∧ ∀ c ∈ w, pyIsSpace c = true

/-- Text of the shape of `SYSLOG_PATTERN`'s `timestamp` group: ISO-8601
date and time with optional fractional seconds and optional UTC offset. -/
def IsoTimestampText (ts : List Char) : Prop :=
  ∃ y mo d h mi s frac off : List Char,
    (y.length = 4 ∧ ∀ c ∈ y, c.isDigit = true) ∧
    (mo.length = 2 ∧ ∀ c ∈ mo, c.isDigit = true) ∧
    (d.length = 2 ∧ ∀ c ∈ d, c.isDigit = true) ∧
    (h.length = 2 ∧ ∀ c ∈ h, c.isDigit = true) ∧
    (mi.length = 2 ∧ ∀ c ∈ mi, c.isDigit = true) ∧
    (s.length = 2 ∧ ∀ c ∈ s, c.isDigit = true) ∧
    (frac = [] ∨
      ∃ ds, ds ≠ [] ∧ (∀ c ∈ ds, c.isDigit = true) ∧ frac = '.' :: ds) ∧
    (off = [] ∨
      ∃ sgn o1 o2, (sgn = '+' ∨ sgn = '-') ∧
        (o1.length = 2 ∧ ∀ c ∈ o1, c.isDigit = true) ∧
        (o2.length = 2 ∧ ∀ c ∈ o2, c.isDigit = true) ∧
        off = sgn :: (o1 ++ ':' :: o2)) ∧
    ts = y ++ '-' :: mo ++ '-' :: d ++ 'T' :: h ++ ':' :: mi ++ ':' :: s
           ++ frac ++ off

/-- Text of the optional bracketed pid. -/
def pidText : Option (List Char) → List Char
  | none => []
  | some ds => '[' :: ds ++ [']']

/-- Text of the optional process/pid clause
(`<process>[<pid>]:<ws>` as in the pattern's optional group). -/
def procPart : Option (List Char × Option (List Char) × List Char) →
    List Char
  | none => []
  | some (proc, pid, w4) => proc ++ pidText pid ++ ':' :: w4

/-- Well-formedness of the optional process/pid clause descriptor: when the
clause is present, the process token is a nonempty `[\w\-]` run, the pid (if
any) a nonempty digit run and the post-colon run whitespace; when absent,
the message must not itself begin like a process clause (the regex would
capture it otherwise). -/
def ProcClauseOk (pc : Option (List Char × Option (List Char) × List Char))
    (msg : List Char) : Prop :=
  match pc with
  | none => matchProcClause msg = none
  | some (proc, pid, w4) =>
      (proc ≠ [] ∧ ∀ c ∈ proc, pyIsWordHyphen c = true) ∧
      (∀ ds, pid = some ds → ds ≠ [] ∧ ∀ c ∈ ds, c.isDigit = true) ∧
      WsRun w4

/-- The `process` field value produced for a clause descriptor. -/
def pcProcess : Option (List Char × Option (List Char) × List Char) →
    List Char
  | none => []
  | some (proc, _, _) => proc

/-- The `pid` field value produced for a clause descriptor. -/
def pcPid : Option (List Char × Option (List Char) × List Char) → Option Nat
  | some (_, some ds, _) => some (digitsToNat ds)
  | _ => none

/-- The capture-dict `process`/`pid` values for a clause descriptor. -/
def pcGroups : Option (List Char × Option (List Char) × List Char) →
    Option (List Char) × Option (List Char)
  | none => (none, none)
  | some (proc, pid, _) => (some proc, pid)

/-! ### Concrete sample data used by witnesses and counterexamples -/

/-- A datetime oracle on which both library parsers always raise and the
current time is `0`. -/
def env0 : DateTimeEnv := ⟨fun _ => none, fun _ => none, 0⟩

/-- A sample log entry. -/
def sampleEntry : LogEntry :=
  ⟨0, "h".toList, .info, [], none, "m".toList, "m".toList⟩

/-- A one-member name-to-content mapping whose `syslog` file holds three
plain lines. -/
def filesXYZ : List (List Char × List Char) :=
  [("syslog".toList, "x\ny\nz".toList)]

/-- Two regular tar members sharing one name. -/
def dupMembers : List TarMember :=
  [⟨"a".toList, true, some "c1".toList⟩, ⟨"a".toList, true, some "c2".toList⟩]

/-- Two regular tar members with distinct names, the second corrupted. -/
def okMembers : List TarMember :=
  [⟨"a".toList, true, some "c1".toList⟩, ⟨"b".toList, true, none⟩,
   ⟨"d".toList, false, some "c3".toList⟩, ⟨"e".toList, true, some "c4".toList⟩]

/-! ### Helper lemmas: stability of the descending timestamp sort -/

theorem filter_orderedInsert_of_eq (t : Int) (a : LogEntry)
    (l : List LogEntry) (ha : a.timestamp = t) :
    (List.orderedInsert tsGE a l).filter (fun e => decide (e.timestamp = t)) =
      a :: l.filter (fun e => decide (e.timestamp = t)) := by
  induction l with
  | nil => simp [List.orderedInsert, ha]
  | cons b l ih =>
      by_cases h : tsGE a b
      · simp [List.orderedInsert, h, ha]
      · have hb : b.timestamp ≠ t := by
          simp only [tsGE] at h
          omega
        simp [List.orderedInsert, h, hb, ih]

theorem filter_orderedInsert_of_ne (t : Int) (a : LogEntry)
    (l : List LogEntry) (ha : a.timestamp ≠ t) :
    (List.orderedInsert tsGE a l).filter (fun e => decide (e.timestamp = t)) =
      l.filter (fun e => decide (e.timestamp = t)) := by
  induction l with
  | nil => simp [List.orderedInsert, ha]
  | cons b l ih =>
      by_cases h : tsGE a b
      · simp [List.orderedInsert, h, ha]
      · simp only [List.orderedInsert, if_neg h]
        rw [List.filter_cons, List.filter_cons, ih]

theorem filter_sortEntriesDesc (t : Int) (l : List LogEntry) :
    (sortEntriesDesc l).filter (fun e => decide (e.timestamp = t)) =
      l.filter (fun e => decide (e.timestamp = t)) := by
  induction l with
  | nil => rfl
  | cons a l ih =>
      simp only [sortEntriesDesc, List.insertionSort] at ih ⊢
      by_cases ha : a.timestamp = t
      · rw [filter_orderedInsert_of_eq t a _ ha, ih]
        simp [ha]
      · rw [filter_orderedInsert_of_ne t a _ ha, ih]
        simp [ha]

theorem applyMaxEntries_sublist (me : Option Int) (l : List LogEntry) :
    List.Sublist (applyMaxEntries me l) l := by
  cases me with
  | none => exact List.Sublist.refl l
  | some k =>
      simp only [applyMaxEntries]
      split_ifs
      · exact List.Sublist.refl l
      · unfold pySlice
        split_ifs <;> exact List.take_sublist _ _

/-- **C1.** The entries of the report returned by `get_logs` are sorted by
timestamp in descending order (newest first), and the sort is stable:
restricted to any fixed timestamp, the report's entries are a sub-sequence
of the entries in parse order, and exactly the parse-order sequence when no
truncation is requested. -/
theorem get_logs_entries_sorted_and_stable (env : DateTimeEnv)
    (name addr : List Char) (log_files : List (List Char × List Char))
    (log_type : LogType) (max_entries : Option Int) :
    List.Sorted tsGE
      (get_logs env name addr log_files log_type max_entries).entries ∧
    (∀ t : Int, List.Sublist
      ((get_logs env name addr log_files log_type max_entries).entries.filter
        (fun e => decide (e.timestamp = t)))
      ((parse_log_content env (find_log_content log_files log_type)).filter
        (fun e => decide (e.timestamp = t)))) ∧
    (max_entries = none →
      ∀ t : Int,
        (get_logs env name addr log_files log_type max_entries).entries.filter
          (fun e => decide (e.timestamp = t)) =
        (parse_log_content env (find_log_content log_files log_type)).filter
          (fun e => decide (e.timestamp = t))) := by
  have hent :
      (get_logs env name addr log_files log_type max_entries).entries =
        applyMaxEntries max_entries
          (sortEntriesDesc
            (parse_log_content env (find_log_content log_files log_type))) :=
    rfl
  refine ⟨?_, ?_, ?_⟩
  · rw [hent]
    exact (List.sorted_insertionSort tsGE _).sublist
      (applyMaxEntries_sublist _ _)
  · intro t
    rw [hent,
      ← filter_sortEntriesDesc t
        (parse_log_content env (find_log_content log_files log_type))]
    exact (applyMaxEntries_sublist _ _).filter _
  · intro hnone t
    rw [hent, hnone]
    exact filter_sortEntriesDesc t _

theorem get_logs_entries_sorted_and_stable_witness :
    (get_logs env0 "n".toList "a".toList filesXYZ .system none).entries.filter
      (fun e => decide (e.timestamp = 0)) =
    (parse_log_content env0 (find_log_content filesXYZ .system)).filter
      (fun e => decide (e.timestamp = 0)) :=
  (get_logs_entries_sorted_and_stable env0 "n".toList "a".toList filesXYZ
    .system none).2.2 rfl 0

/-- **C2.** With a positive `max_entries = k`, `get_logs` returns exactly
the first `min k n` entries of the newest-first sorted list; with
`max_entries` absent (`none`) or `0`, all entries are returned
untruncated. -/
theorem get_logs_max_entries_truncates (env : DateTimeEnv)
    (name addr : List Char) (log_files : List (List Char × List Char))
    (log_type : LogType) (k : Int) :
    (0 < k →
      (get_logs env name addr log_files log_type (some k)).entries =
        (sortEntriesDesc (parse_log_content env
          (find_log_content log_files log_type))).take k.toNat ∧
      (get_logs env name addr log_files log_type (some k)).entries.length =
        min k.toNat (sortEntriesDesc (parse_log_content env
          (find_log_content log_files log_type))).length) ∧
    (get_logs env name addr log_files log_type none).entries =
      sortEntriesDesc (parse_log_content env
        (find_log_content log_files log_type)) ∧
    (get_logs env name addr log_files log_type (some 0)).entries =
      sortEntriesDesc (parse_log_content env
        (find_log_content log_files log_type)) := by
  refine ⟨?_, rfl, ?_⟩
  · intro hk
    have hne : k ≠ 0 := by omega
    have h0 : 0 ≤ k := le_of_lt hk
    have hent :
        (get_logs env name addr log_files log_type (some k)).entries =
          (sortEntriesDesc (parse_log_content env
            (find_log_content log_files log_type))).take k.toNat := by
      have : (get_logs env name addr log_files log_type (some k)).entries =
          applyMaxEntries (some k) (sortEntriesDesc (parse_log_content env
            (find_log_content log_files log_type))) := rfl
      rw [this]
      simp [applyMaxEntries, hne, pySlice, h0]
    exact ⟨hent, by rw [hent]; exact List.length_take _ _⟩
  · have : (get_logs env name addr log_files log_type (some 0)).entries =
        applyMaxEntries (some 0) (sortEntriesDesc (parse_log_content env
          (find_log_content log_files log_type))) := rfl
    rw [this]
    simp [applyMaxEntries]

theorem get_logs_max_entries_truncates_witness :
    (get_logs env0 "n".toList "a".toList filesXYZ .system (some 2)).entries =
      (sortEntriesDesc (parse_log_content env0
        (find_log_content filesXYZ .system))).take (2 : Int).toNat :=
  ((get_logs_max_entries_truncates env0 "n".toList "a".toList filesXYZ
    .system 2).1 (by decide)).1

/-- **C10.** A negative `max_entries = k` is neither rejected nor treated
as "no limit": the returned entries are the Python slice `entries[:k]` of
the newest-first sorted list, i.e. all but the last `|k|` entries, and the
report is empty when `|k|` is at least the number of sorted entries. -/
theorem get_logs_negative_max_entries (env : DateTimeEnv)
    (name addr : List Char) (log_files : List (List Char × List Char))
    (log_type : LogType) (k : Int) (hk : k < 0) :
    (get_logs env name addr log_files log_type (some k)).entries =
      (sortEntriesDesc (parse_log_content env
        (find_log_content log_files log_type))).take
        ((sortEntriesDesc (parse_log_content env
          (find_log_content log_files log_type))).length - (-k).toNat) ∧
    (((sortEntriesDesc (parse_log_content env
        (find_log_content log_files log_type))).length : Int) + k ≤ 0 →
      (get_logs env name addr log_files log_type (some k)).entries = []) := by
  have hne : k ≠ 0 := by omega
  have hnn : ¬ (0 ≤ k) := by omega
  have hent :
      (get_logs env name addr log_files log_type (some k)).entries =
        (sortEntriesDesc (parse_log_content env
          (find_log_content log_files log_type))).take
          (((sortEntriesDesc (parse_log_content env
            (find_log_content log_files log_type))).length : Int) + k).toNat := by
    have : (get_logs env name addr log_files log_type (some k)).entries =
        applyMaxEntries (some k) (sortEntriesDesc (parse_log_content env
          (find_log_content log_files log_type))) := rfl
    rw [this]
    simp [applyMaxEntries, hne, pySlice, hnn]
  constructor
  · rw [hent]
    congr 1
    omega
  · intro hle
    rw [hent]
    have h0 : (((sortEntriesDesc (parse_log_content env
        (find_log_content log_files log_type))).length : Int) + k).toNat = 0 := by
      omega
    rw [h0]
    rfl

theorem get_logs_negative_max_entries_witness :
    (get_logs env0 "n".toList "a".toList filesXYZ .system (some (-1))).entries =
      (sortEntriesDesc (parse_log_content env0
        (find_log_content filesXYZ .system))).take
        ((sortEntriesDesc (parse_log_content env0
          (find_log_content filesXYZ .system))).length - (-(-1) : Int).toNat) :=
  (get_logs_negative_max_entries env0 "n".toList "a".toList filesXYZ
    .system (-1) (by decide)).1

/-- **C9** counterexample: a `LogReport` constructed with one entry and an
explicitly supplied `total_entries = 0` does not preserve the supplied
value — `model_post_init` cannot distinguish an explicit `0` from the
field's default and overwrites it with the entry count `1`. -/
theorem total_entries_explicit_zero_overwritten :
    (mkLogReport "n".toList "a".toList .system [sampleEntry]
        0).total_entries = 1 ∧
    (mkLogReport "n".toList "a".toList .system [sampleEntry]
        0).total_entries ≠ 0 :=
  ⟨rfl, by decide⟩

/-- **C9** (amended): `total_entries` is derived as the length of the
entries when the supplied value is absent OR ZERO (zero is the field
default and is indistinguishable from "not supplied"); a nonzero supplied
value is preserved; and the report returned by `get_logs` has
`total_entries` equal to the length of the (possibly truncated) entry
sequence actually returned. -/
theorem total_entries_derivation (name addr : List Char) (lt : LogType)
    (entries : List LogEntry) (total : Int) :
    (total = 0 →
      (mkLogReport name addr lt entries total).total_entries =
        entries.length) ∧
    (total ≠ 0 →
      (mkLogReport name addr lt entries total).total_entries = total) ∧
    (∀ (env : DateTimeEnv) (log_files : List (List Char × List Char))
        (me : Option Int),
      (get_logs env name addr log_files lt me).total_entries =
        (get_logs env name addr log_files lt me).entries.length) := by
  refine ⟨fun h => by simp [mkLogReport, h],
          fun h => by simp [mkLogReport, h],
          fun env lf me => ?_⟩
  simp [get_logs, mkLogReport]

theorem total_entries_derivation_witness :
    (mkLogReport "n".toList "a".toList .system [sampleEntry]
        5).total_entries = 5 :=
  (total_entries_derivation "n".toList "a".toList .system [sampleEntry]
    5).2.1 (by decide)

/-- **C3** counterexample: the two level normalizations disagree on the
long forms "emergency" and "critical" — the parser helper maps them to
themselves while the model validator's `level_map` lacks those keys and
falls back to `info`. -/
theorem level_normalization_mismatch :
    parse_log_level "emergency".toList = .emergency ∧
    normalize_level "emergency".toList = .info ∧
    parse_log_level "critical".toList = .critical ∧
    normalize_level "critical".toList = .info :=
  ⟨rfl, rfl, rfl, rfl⟩

/-- **C3** (amended): on every level string whose lower-casing is neither
"emergency" nor "critical", `_parse_log_level` and the `normalize_level`
validator agree (both case-insensitive, long forms to themselves, the
abbreviations warn/err/crit/emerg to their long forms, anything else to
`info`); on those two strings the parser helper maps to the level itself
while the validator yields `info`. -/
theorem level_normalization_agree (s : List Char)
    (h1 : s.map pyLower ≠ "emergency".toList)
    (h2 : s.map pyLower ≠ "critical".toList) :
    parse_log_level s = normalize_level s := by
  simp only [parse_log_level, normalize_level, logLevelOfValue]
  generalize hl : s.map pyLower = l at h1 h2 ⊢
  by_cases e1 : l = "emergency".toList
  · exact absurd e1 h1
  by_cases e2 : l = "alert".toList
  · subst e2; rfl
  by_cases e3 : l = "critical".toList
  · exact absurd e3 h2
  by_cases e4 : l = "error".toList
  · subst e4; rfl
  by_cases e5 : l = "warning".toList
  · subst e5; rfl
  by_cases e6 : l = "notice".toList
  · subst e6; rfl
  by_cases e7 : l = "info".toList
  · subst e7; rfl
  by_cases e8 : l = "debug".toList
  · subst e8; rfl
  by_cases e9 : l = "warn".toList
  · subst e9; rfl
  by_cases e10 : l = "err".toList
  · subst e10; rfl
  by_cases e11 : l = "crit".toList
  · subst e11; rfl
  by_cases e12 : l = "emerg".toList
  · subst e12; rfl
  simp only [if_neg e1, if_neg e2, if_neg e3, if_neg e4, if_neg e5,
    if_neg e6, if_neg e7, if_neg e8, if_neg e9, if_neg e10, if_neg e11,
    if_neg e12]

theorem level_normalization_agree_witness :
    parse_log_level "WARN".toList = normalize_level "WARN".toList :=
  level_normalization_agree "WARN".toList (by decide) (by decide)

/-- **C4** counterexample: on the non-blank input line `" x "`, which
matches neither grammar, the returned entry's `raw` field is the stripped
line `"x"`, not the original line — `parse_log_line` strips the line
before storing it. -/
theorem raw_field_not_verbatim :
    (parse_log_line env0 " x ".toList).map LogEntry.raw = some "x".toList ∧
    "x".toList ≠ " x ".toList :=
  ⟨rfl, by decide⟩

/-- **C4** (amended): for every input line that is non-blank after
stripping and whose stripped form matches neither grammar,
`parse_log_line` returns an entry whose `raw` and `message` fields both
equal the whitespace-STRIPPED input line (hence the original line exactly
when it has no leading or trailing whitespace), with hostname `"unknown"`,
level `info`, empty process, no pid, and the current time as timestamp. -/
theorem unmatched_line_fallback_entry (env : DateTimeEnv) (line : List Char)
    (hne : pyStrip line ≠ [])
    (hsys : syslogMatch (pyStrip line) = none)
    (hsimple : simpleMatch (pyStrip line) = none) :
    parse_log_line env line = some
      { timestamp := env.now
      , hostname := "unknown".toList
      , level := .info
      , process := []
      , pid := none
      , message := pyStrip line
      , raw := pyStrip line } := by
  have hempty : (pyStrip line).isEmpty = false := by simp_all
  simp only [parse_log_line, hempty, hsys, hsimple]
  rfl

theorem unmatched_line_fallback_entry_witness :
    parse_log_line env0 "hello".toList = some
      { timestamp := env0.now
      , hostname := "unknown".toList
      , level := .info
      , process := []
      , pid := none
      , message := pyStrip "hello".toList
      , raw := pyStrip "hello".toList } :=
  unmatched_line_fallback_entry env0 "hello".toList (by decide) rfl rfl

/-- **C8.** Over the same extracted and classified content, `stream_logs`
yields exactly the entries obtained by parsing each non-empty line in
line-encounter order with no sorting and no truncation — the batch
variant's entry list before its sort-and-limit step — and on empty input
both variants produce zero entries. -/
theorem stream_logs_eq_presort_batch (env : DateTimeEnv)
    (log_files : List (List Char × List Char)) (log_type : LogType) :
    (stream_logs env log_files log_type =
      parse_log_content env (find_log_content log_files log_type)) ∧
    stream_logs env [] log_type = [] ∧
    parse_log_content env [] = [] := by
  refine ⟨rfl, ?_, rfl⟩
  cases log_type <;> rfl

/-- **C7.** Classification returns the newline-joined contents, in mapping
order, of exactly the files whose lower-cased name contains one of the
category's fixed fragments (each matching file once); category `all`
joins every file's content; zero matches yield the empty string. -/
theorem find_log_content_characterization
    (log_files : List (List Char × List Char)) (log_type : LogType) :
    (log_type ≠ .all →
      find_log_content log_files log_type =
        joinNL ((log_files.filter (fun fc =>
          decide (∃ p ∈ LOG_FILE_PATTERNS log_type,
            (p.map pyLower) <:+: (fc.1.map pyLower)))).map Prod.snd)) ∧
    (find_log_content log_files .all =
      joinNL (log_files.map Prod.snd)) ∧
    ((log_type ≠ .all ∧
        ∀ fc ∈ log_files, ¬ ∃ p ∈ LOG_FILE_PATTERNS log_type,
          (p.map pyLower) <:+: (fc.1.map pyLower)) →
      find_log_content log_files log_type = []) := by
  have hpred : ∀ fc : List Char × List Char,
      ((LOG_FILE_PATTERNS log_type).any (fun p =>
        decide ((p.map pyLower) <:+: (fc.1.map pyLower)))) =
      decide (∃ p ∈ LOG_FILE_PATTERNS log_type,
        (p.map pyLower) <:+: (fc.1.map pyLower)) := by
    intro fc
    rw [Bool.eq_iff_iff]
    simp [List.any_eq_true]
  refine ⟨?_, by simp [find_log_content], ?_⟩
  · intro hne
    simp only [find_log_content, if_neg hne]
    rw [List.filter_congr (fun fc _ => hpred fc)]
  · rintro ⟨hne, hnone⟩
    have hx : log_files.filter (fun fc =>
        (LOG_FILE_PATTERNS log_type).any (fun p =>
          decide ((p.map pyLower) <:+: (fc.1.map pyLower)))) = [] := by
      rw [List.filter_eq_nil_iff]
      intro fc hfc
      rw [hpred fc]
      simpa using hnone fc hfc
    simp only [find_log_content, if_neg hne, hx]
    rfl

theorem find_log_content_characterization_witness :
    find_log_content [("other".toList, "x".toList)] .access = [] :=
  (find_log_content_characterization [("other".toList, "x".toList)]
    .access).2.2 ⟨by decide, by decide⟩

/-- **C6** counterexample: a tar archive may contain two regular members
with the same name; `get_log_files` then returns a single mapping entry
for the two successfully extracted regular-file members (the later
content overwrites the earlier), not one entry per member. -/
theorem get_log_files_duplicate_member_collapses :
    get_log_files (.ok dupMembers) [] = [("a".toList, "c2".toList)] ∧
    (dupMembers.filter (fun m => m.isFile && m.content.isSome)).length = 2 ∧
    (get_log_files (.ok dupMembers) []).length = 1 :=
  ⟨rfl, rfl, rfl⟩

theorem get_log_files_foldl_characterization (members : List TarMember)
    (acc : List (List Char × List Char))
    (hfresh : ∀ m ∈ members.filter (fun m => m.isFile && m.content.isSome),
      ∀ kv ∈ acc, kv.1 ≠ m.name)
    (hdistinct : List.Pairwise (fun m1 m2 => m1.name ≠ m2.name)
      (members.filter (fun m => m.isFile && m.content.isSome))) :
    members.foldl
      (fun acc m =>
        if m.isFile then
          match m.content with
          | some text => dictInsert m.name text acc
          | none => acc
        else acc) acc =
      acc ++ (members.filter (fun m => m.isFile && m.content.isSome)).map
        (fun m => (m.name, m.content.getD [])) := by
  induction members generalizing acc with
  | nil => simp
  | cons m ms ih =>
      rw [List.foldl_cons]
      by_cases hfile : m.isFile = true
      · cases hc : m.content with
        | some text =>
            have hret : (fun m : TarMember =>
                m.isFile && m.content.isSome) m = true := by
              simp [hfile, hc]
            have hmem : m ∈ (m :: ms).filter
                (fun m => m.isFile && m.content.isSome) :=
              List.mem_filter.mpr ⟨List.mem_cons_self m ms, hret⟩
            have hany : acc.any (fun kv => decide (kv.1 = m.name)) = false := by
              rw [List.any_eq_false]
              intro kv hkv
              simp only [decide_eq_true_eq]
              exact fun h => hfresh m hmem kv hkv h
            have hins : dictInsert m.name text acc =
                acc ++ [(m.name, text)] := by
              simp only [dictInsert, hany]
              rw [if_neg]
              simp
            have hfilter : (m :: ms).filter
                (fun m => m.isFile && m.content.isSome) =
                m :: ms.filter (fun m => m.isFile && m.content.isSome) :=
              List.filter_cons_of_pos hret
            rw [hfilter] at hdistinct hfresh
            have hdist2 := (List.pairwise_cons.mp hdistinct).2
            have hhead := (List.pairwise_cons.mp hdistinct).1
            simp only [hfile, if_true, hins]
            rw [ih (acc ++ [(m.name, text)]) ?_ hdist2]
            · rw [hfilter]
              simp [hc]
            · intro m2 hm2 kv hkv
              rcases List.mem_append.mp hkv with hin | hin
              · exact hfresh m2 (List.mem_cons_of_mem m hm2) kv hin
              · have hkv2 : kv = (m.name, text) := by simpa using hin
                rw [hkv2]
                exact hhead m2 hm2
        | none =>
            have hret : (fun m : TarMember =>
                m.isFile && m.content.isSome) m = false := by
              simp [hfile, hc]
            have hfilter : (m :: ms).filter
                (fun m => m.isFile && m.content.isSome) =
                ms.filter (fun m => m.isFile && m.content.isSome) :=
              List.filter_cons_of_neg (by simp [hret])
            rw [hfilter] at hdistinct hfresh
            rw [hfilter]
            simp only [hfile, if_true]
            exact ih acc hfresh hdistinct
      · have hret : (fun m : TarMember =>
            m.isFile && m.content.isSome) m = false := by
          simp [Bool.eq_false_iff.mpr hfile]
        have hfilter : (m :: ms).filter
            (fun m => m.isFile && m.content.isSome) =
            ms.filter (fun m => m.isFile && m.content.isSome) :=
          List.filter_cons_of_neg (by simp [hret])
        rw [hfilter] at hdistinct hfresh
        rw [hfilter]
        simp only [if_neg hfile]
        exact ih acc hfresh hdistinct

/-- **C6** (amended): extraction is total by construction; when the bytes
parse as tar and the successfully extracted regular-file members carry
pairwise distinct names, the mapping has exactly one entry per such
member, in order, holding its replacement-decoded content (members that
are not regular files or whose extraction fails are silently omitted); a
repeated name instead collapses onto a single entry, the last content
winning; when the bytes do not parse as tar, the mapping is exactly one
entry `"serverreport.txt"` holding the replacement-decoded payload. -/
theorem get_log_files_characterization (members : List TarMember)
    (decodedPayload : List Char)
    (hdistinct : List.Pairwise (fun m1 m2 => m1.name ≠ m2.name)
      (members.filter (fun m => m.isFile && m.content.isSome))) :
    get_log_files (.ok members) decodedPayload =
      (members.filter (fun m => m.isFile && m.content.isSome)).map
        (fun m => (m.name, m.content.getD [])) ∧
    get_log_files (.error ()) decodedPayload =
      [("serverreport.txt".toList, decodedPayload)] := by
  refine ⟨?_, rfl⟩
  have h := get_log_files_foldl_characterization members []
    (fun m _ kv hkv => absurd hkv (List.not_mem_nil kv)) hdistinct
  simpa [get_log_files] using h

theorem get_log_files_characterization_witness :
    get_log_files (.ok okMembers) [] =
      (okMembers.filter (fun m => m.isFile && m.content.isSome)).map
        (fun m => (m.name, m.content.getD [])) :=
  (get_log_files_characterization okMembers [] (by decide)).1

/-! ### Helper lemmas for the primary-grammar theorem -/

theorem pyIsSpace_cases (c : Char) (h : pyIsSpace c = true) :
    c = ' ' ∨ c = '\t' ∨ c = '\n' ∨ c = '\x0d' ∨ c = '\x0b' ∨ c = '\x0c' := by
  have h2 := h
  simp only [pyIsSpace, Bool.or_eq_true, decide_eq_true_eq] at h2
  tauto

theorem space_props (c : Char) (h : pyIsSpace c = true) :
    c.isDigit = false ∧ pyIsWordHyphen c = false ∧ pyIsWord c = false ∧
    c ≠ '.' ∧ c ≠ '+' ∧ c ≠ '-' ∧ c ≠ '[' := by
  rcases pyIsSpace_cases c h with rfl | rfl | rfl | rfl | rfl | rfl <;> decide

theorem digit_not_space (c : Char) (h : c.isDigit = true) :
    pyIsSpace c = false := by
  cases hs : pyIsSpace c
  · rfl
  · rw [(space_props c hs).1] at h
    exact absurd h (by decide)

theorem word_not_space (c : Char) (h : pyIsWord c = true) :
    pyIsSpace c = false := by
  cases hs : pyIsSpace c
  · rfl
  · rw [(space_props c hs).2.2.1] at h
    exact absurd h (by decide)

theorem wordHyphen_not_space (c : Char) (h : pyIsWordHyphen c = true) :
    pyIsSpace c = false := by
  cases hs : pyIsSpace c
  · rfl
  · rw [(space_props c hs).2.1] at h
    exact absurd h (by decide)

theorem takeWhile_append_exact (p : Char → Bool) (w rest : List Char)
    (hw : ∀ c ∈ w, p c = true)
    (hr : ∀ c, rest.head? = some c → p c = false) :
    (w ++ rest).takeWhile p = w ∧ (w ++ rest).dropWhile p = rest := by
  induction w with
  | nil =>
      simp only [List.nil_append]
      cases rest with
      | nil => simp
      | cons c r =>
          have hc := hr c rfl
          simp [List.takeWhile_cons, List.dropWhile_cons, hc]
  | cons a w ih =>
      have ha : p a = true := hw a (List.mem_cons_self _ _)
      have ih2 := ih (fun c hc => hw c (List.mem_cons_of_mem _ hc))
      simp [List.takeWhile_cons, List.dropWhile_cons, ha, ih2.1, ih2.2]

theorem pRun_exact (p : Char → Bool) (w rest : List Char)
    (hw : ∀ c ∈ w, p c = true)
    (hr : ∀ c, rest.head? = some c → p c = false) :
    pRun p (w ++ rest) = (w, rest) := by
  have h := takeWhile_append_exact p w rest hw hr
  simp [pRun, h.1, h.2]

theorem pDigits_exact (ds rest : List Char)
    (hds : ∀ c ∈ ds, c.isDigit = true) :
    pDigits ds.length (ds ++ rest) = some (ds, rest) := by
  induction ds with
  | nil => rfl
  | cons c ds ih =>
      have hc : c.isDigit = true := hds c (List.mem_cons_self _ _)
      simp [pDigits, hc, ih (fun c h => hds c (List.mem_cons_of_mem _ h))]

theorem expectChar_cons (c : Char) (rest : List Char) :
    expectChar c (c :: rest) = some rest := by
  simp [expectChar]

theorem dropWhile_eq_self_of_head (p : Char → Bool) (cs : List Char)
    (h : ∀ c, cs.head? = some c → p c = false) :
    cs.dropWhile p = cs := by
  cases cs with
  | nil => rfl
  | cons a r => simp [List.dropWhile_cons, h a rfl]

theorem pyStrip_eq_self (cs : List Char)
    (h1 : ∀ c, cs.head? = some c → pyIsSpace c = false)
    (h2 : ∀ c, cs.getLast? = some c → pyIsSpace c = false) :
    pyStrip cs = cs := by
  unfold pyStrip
  rw [dropWhile_eq_self_of_head _ _ h1,
    dropWhile_eq_self_of_head _ _
      (fun c hc => h2 c (by rwa [List.head?_reverse] at hc)),
    List.reverse_reverse]

theorem head?_append_cons (w : List Char) (c : Char) (tail : List Char) :
    (w ++ c :: tail).head? = some (w.headD c) := by
  cases w <;> rfl

theorem head_pred_of_append_cons (p : Char → Bool) (w : List Char) (b : Char)
    (t : List Char) (hw : ∀ c ∈ w, p c = false) (hb : p b = false) :
    ∀ c, (w ++ b :: t).head? = some c → p c = false := by
  intro c hc
  rw [head?_append_cons] at hc
  cases w with
  | nil =>
      injection hc with h
      subst h
      exact hb
  | cons a w =>
      injection hc with h
      subst h
      exact hw a (List.mem_cons_self _ _)

theorem matchFrac_nomatch (cs : List Char)
    (h : ∀ c, cs.head? = some c → c ≠ '.') :
    matchFrac cs = ([], cs) := by
  cases cs with
  | nil => rfl
  | cons a r => simp [matchFrac, h a rfl]

theorem matchFrac_exact (ds rest : List Char) (hne : ds ≠ [])
    (hds : ∀ c ∈ ds, c.isDigit = true)
    (hr : ∀ c, rest.head? = some c → c.isDigit = false) :
    matchFrac ('.' :: (ds ++ rest)) = ('.' :: ds, rest) := by
  have h := takeWhile_append_exact Char.isDigit ds rest hds hr
  simp [matchFrac, h.1, h.2, hne]

theorem matchOffset_nomatch (cs : List Char)
    (h : ∀ c, cs.head? = some c → c ≠ '+' ∧ c ≠ '-') :
    matchOffset cs = ([], cs) := by
  cases cs with
  | nil => rfl
  | cons a r =>
      have ha := h a rfl
      simp [matchOffset, ha.1, ha.2]

theorem matchOffset_exact (sgn : Char) (o1 o2 rest : List Char)
    (hsgn : sgn = '+' ∨ sgn = '-')
    (h1 : o1.length = 2 ∧ ∀ c ∈ o1, c.isDigit = true)
    (h2 : o2.length = 2 ∧ ∀ c ∈ o2, c.isDigit = true) :
    matchOffset (sgn :: (o1 ++ ':' :: (o2 ++ rest))) =
      (sgn :: (o1 ++ ':' :: o2), rest) := by
  have e1 : pDigits 2 (o1 ++ ':' :: (o2 ++ rest)) =
      some (o1, ':' :: (o2 ++ rest)) := by
    rw [← h1.1]
    exact pDigits_exact o1 _ h1.2
  have e2 : pDigits 2 (o2 ++ rest) = some (o2, rest) := by
    rw [← h2.1]
    exact pDigits_exact o2 _ h2.2
  have hs : (sgn = '+' || sgn = '-') = true := by
    rcases hsgn with rfl | rfl <;> decide
  simp [matchOffset, hs, e1, e2]

theorem matchIsoTimestamp_exact (ts rest : List Char)
    (hts : IsoTimestampText ts)
    (hrest : ∀ c, rest.head? = some c → pyIsSpace c = true) :
    matchIsoTimestamp (ts ++ rest) = some (ts, rest) := by
  obtain ⟨y, mo, d, h, mi, s, frac, off, hy, hmo, hd, hh, hmi, hs, hfrac,
    hoff, rfl⟩ := hts
  have hoffhead : ∀ c, (off ++ rest).head? = some c →
      c.isDigit = false ∧ c ≠ '.' := by
    rcases hoff with rfl | ⟨sgn, o1, o2, hsgn, ho1, ho2, rfl⟩
    · intro c hc
      simp only [List.nil_append] at hc
      have hsp := hrest c hc
      exact ⟨(space_props c hsp).1, (space_props c hsp).2.2.2.1⟩
    · intro c hc
      simp only [List.cons_append, List.head?_cons, Option.some.injEq] at hc
      subst hc
      rcases hsgn with rfl | rfl <;> exact ⟨by decide, by decide⟩
  have eFrac : matchFrac (frac ++ (off ++ rest)) = (frac, off ++ rest) := by
    rcases hfrac with rfl | ⟨ds, hdsne, hds, rfl⟩
    · rw [List.nil_append]
      exact matchFrac_nomatch _ (fun c hc => (hoffhead c hc).2)
    · rw [List.cons_append]
      exact matchFrac_exact ds (off ++ rest) hdsne hds
        (fun c hc => (hoffhead c hc).1)
  have eOff : matchOffset (off ++ rest) = (off, rest) := by
    rcases hoff with rfl | ⟨sgn, o1, o2, hsgn, ho1, ho2, rfl⟩
    · rw [List.nil_append]
      refine matchOffset_nomatch rest (fun c hc => ?_)
      have hsp := hrest c hc
      exact ⟨(space_props c hsp).2.2.2.2.1, (space_props c hsp).2.2.2.2.2.1⟩
    · have := matchOffset_exact sgn o1 o2 rest hsgn ho1 ho2
      simpa [List.cons_append, List.append_assoc] using this
  have e1 : pDigits 4 (y ++ '-' :: (mo ++ '-' :: (d ++ 'T' :: (h ++ ':' ::
      (mi ++ ':' :: (s ++ (frac ++ (off ++ rest)))))))) =
      some (y, '-' :: (mo ++ '-' :: (d ++ 'T' :: (h ++ ':' ::
        (mi ++ ':' :: (s ++ (frac ++ (off ++ rest)))))))) := by
    rw [← hy.1]
    exact pDigits_exact y _ hy.2
  have e2 : pDigits 2 (mo ++ '-' :: (d ++ 'T' :: (h ++ ':' ::
      (mi ++ ':' :: (s ++ (frac ++ (off ++ rest))))))) =
      some (mo, '-' :: (d ++ 'T' :: (h ++ ':' ::
        (mi ++ ':' :: (s ++ (frac ++ (off ++ rest))))))) := by
    rw [← hmo.1]
    exact pDigits_exact mo _ hmo.2
  have e3 : pDigits 2 (d ++ 'T' :: (h ++ ':' ::
      (mi ++ ':' :: (s ++ (frac ++ (off ++ rest)))))) =
      some (d, 'T' :: (h ++ ':' ::
        (mi ++ ':' :: (s ++ (frac ++ (off ++ rest)))))) := by
    rw [← hd.1]
    exact pDigits_exact d _ hd.2
  have e4 : pDigits 2 (h ++ ':' :: (mi ++ ':' :: (s ++ (frac ++
      (off ++ rest))))) =
      some (h, ':' :: (mi ++ ':' :: (s ++ (frac ++ (off ++ rest))))) := by
    rw [← hh.1]
    exact pDigits_exact h _ hh.2
  have e5 : pDigits 2 (mi ++ ':' :: (s ++ (frac ++ (off ++ rest)))) =
      some (mi, ':' :: (s ++ (frac ++ (off ++ rest)))) := by
    rw [← hmi.1]
    exact pDigits_exact mi _ hmi.2
  have e6 : pDigits 2 (s ++ (frac ++ (off ++ rest))) =
      some (s, frac ++ (off ++ rest)) := by
    rw [← hs.1]
    exact pDigits_exact s _ hs.2
  simp only [List.append_assoc, List.cons_append]
  simp only [matchIsoTimestamp, e1, e2, e3, e4, e5, e6, expectChar_cons,
    eFrac, eOff, Option.bind_eq_bind, Option.some_bind]
  simp [List.append_assoc]

theorem matchDotStarEnd_no_newline (cs : List Char) (h : '\n' ∉ cs) :
    matchDotStarEnd cs = some cs := by
  have hc : cs.contains '\n' = false := by simpa using h
  unfold matchDotStarEnd
  rw [hc]
  rfl

theorem head_of_append_of_ne_nil (w t : List Char) (hne : w ≠ []) :
    (w ++ t).head? = w.head? := by
  cases w with
  | nil => exact absurd rfl hne
  | cons a w => rfl

theorem head_cond_append (p : Char → Bool) (b : Bool) (w t : List Char)
    (hne : w ≠ []) (hw : ∀ c ∈ w, p c = b) :
    ∀ c, (w ++ t).head? = some c → p c = b := by
  intro c hc
  rw [head_of_append_of_ne_nil w t hne] at hc
  cases w with
  | nil => exact absurd rfl hne
  | cons a w =>
      simp only [List.head?_cons, Option.some.injEq] at hc
      subst hc
      exact hw a (List.mem_cons_self _ _)

theorem matchProcClause_exact (proc : List Char)
    (pid : Option (List Char)) (w4 msg : List Char)
    (hproc : proc ≠ [] ∧ ∀ c ∈ proc, pyIsWordHyphen c = true)
    (hpid : ∀ ds, pid = some ds → ds ≠ [] ∧ ∀ c ∈ ds, c.isDigit = true)
    (hw4 : WsRun w4)
    (hmsg : ∀ c, msg.head? = some c → pyIsSpace c = false) :
    matchProcClause (proc ++ (pidText pid ++ ':' :: (w4 ++ msg))) =
      some (proc, pid, msg) := by
  have eW : pRun pyIsSpace (w4 ++ msg) = (w4, msg) :=
    pRun_exact _ _ _ hw4 hmsg
  have hne : proc.isEmpty = false := by simp [hproc.1]
  cases pid with
  | none =>
      have eP : pRun pyIsWordHyphen (proc ++ ':' :: (w4 ++ msg)) =
          (proc, ':' :: (w4 ++ msg)) :=
        pRun_exact _ _ _ hproc.2 (fun c hc => by
          simp only [List.head?_cons, Option.some.injEq] at hc
          subst hc
          decide)
      simp only [pidText, List.nil_append]
      simp [matchProcClause, eP, hne, eW]
  | some ds =>
      have hds := hpid ds rfl
      have hdne : ds.isEmpty = false := by simp [hds.1]
      have eP : pRun pyIsWordHyphen
          (proc ++ '[' :: (ds ++ ']' :: ':' :: (w4 ++ msg))) =
          (proc, '[' :: (ds ++ ']' :: ':' :: (w4 ++ msg))) :=
        pRun_exact _ _ _ hproc.2 (fun c hc => by
          simp only [List.head?_cons, Option.some.injEq] at hc
          subst hc
          decide)
      have eD : pRun Char.isDigit (ds ++ ']' :: ':' :: (w4 ++ msg)) =
          (ds, ']' :: ':' :: (w4 ++ msg)) :=
        pRun_exact _ _ _ hds.2 (fun c hc => by
          simp only [List.head?_cons, Option.some.injEq] at hc
          subst hc
          decide)
      simp only [pidText, List.cons_append, List.append_assoc,
        List.singleton_append, List.nil_append]
      simp [matchProcClause, eP, hne, eD, hdne, eW]

theorem syslogMatch_exact (ts w1 host w2 p1 lvl p2 w3 msg : List Char)
    (pc : Option (List Char × Option (List Char) × List Char))
    (hts : IsoTimestampText ts) (hw1 : WsRun1 w1)
    (hhost : host ≠ [] ∧ ∀ c ∈ host, pyIsSpace c = false)
    (hw2 : WsRun1 w2) (hp1 : WsRun p1)
    (hlvl : lvl ≠ [] ∧ ∀ c ∈ lvl, pyIsWord c = true) (hp2 : WsRun p2)
    (hw3 : WsRun1 w3)
    (hmsg : (∀ c, msg.head? = some c → pyIsSpace c = false) ∧ '\n' ∉ msg)
    (hpc : ProcClauseOk pc msg) :
    syslogMatch (ts ++ w1 ++ host ++ w2 ++ '[' :: p1 ++ lvl ++ p2 ++
        ']' :: w3 ++ procPart pc ++ msg) =
      some ⟨ts, host, lvl, (pcGroups pc).1, (pcGroups pc).2, msg⟩ := by
  have hw1e : w1.isEmpty = false := by simp [hw1.1]
  have hw2e : w2.isEmpty = false := by simp [hw2.1]
  have hw3e : w3.isEmpty = false := by simp [hw3.1]
  have hhoste : host.isEmpty = false := by simp [hhost.1]
  have hlvle : lvl.isEmpty = false := by simp [hlvl.1]
  have hPPhead : ∀ c, (procPart pc ++ msg).head? = some c →
      pyIsSpace c = false := by
    cases pc with
    | none =>
        simp only [procPart, List.nil_append]
        exact hmsg.1
    | some t =>
        obtain ⟨proc, pid, w4⟩ := t
        obtain ⟨hproc, _, _⟩ := hpc
        simp only [procPart, List.append_assoc]
        exact fun c hc =>
          wordHyphen_not_space c
            (head_cond_append pyIsWordHyphen true proc _ hproc.1 hproc.2 c hc)
  have eIso : matchIsoTimestamp
      ((ts ++ (w1 ++ (host ++ (w2 ++ '[' :: (p1 ++ (lvl ++ (p2 ++ ']' ::
        (w3 ++ (procPart pc ++ msg)))))))))) =
      some (ts, w1 ++ (host ++ (w2 ++ '[' :: (p1 ++ (lvl ++ (p2 ++ ']' ::
        (w3 ++ (procPart pc ++ msg)))))))) :=
    matchIsoTimestamp_exact ts _ hts
      (head_cond_append pyIsSpace true w1 _ hw1.1 hw1.2)
  have eW1 : pRun pyIsSpace (w1 ++ (host ++ (w2 ++ '[' :: (p1 ++ (lvl ++
      (p2 ++ ']' :: (w3 ++ (procPart pc ++ msg)))))))) =
      (w1, host ++ (w2 ++ '[' :: (p1 ++ (lvl ++ (p2 ++ ']' ::
        (w3 ++ (procPart pc ++ msg))))))) :=
    pRun_exact _ _ _ hw1.2
      (head_cond_append pyIsSpace false host _ hhost.1 hhost.2)
  have eHost : pRun (fun c => !pyIsSpace c) (host ++ (w2 ++ '[' ::
      (p1 ++ (lvl ++ (p2 ++ ']' :: (w3 ++ (procPart pc ++ msg))))))) =
      (host, w2 ++ '[' :: (p1 ++ (lvl ++ (p2 ++ ']' ::
        (w3 ++ (procPart pc ++ msg)))))) :=
    pRun_exact _ _ _
      (fun c hc => by rw [hhost.2 c hc]; rfl)
      (fun c hc => by
        rw [head_cond_append pyIsSpace true w2 _ hw2.1 hw2.2 c hc]; rfl)
  have eW2 : pRun pyIsSpace (w2 ++ '[' :: (p1 ++ (lvl ++ (p2 ++ ']' ::
      (w3 ++ (procPart pc ++ msg)))))) =
      (w2, '[' :: (p1 ++ (lvl ++ (p2 ++ ']' ::
        (w3 ++ (procPart pc ++ msg)))))) :=
    pRun_exact _ _ _ hw2.2
      (head_pred_of_append_cons pyIsSpace [] '[' _ (by simp) (by decide))
  have eP1 : pRun pyIsSpace (p1 ++ (lvl ++ (p2 ++ ']' ::
      (w3 ++ (procPart pc ++ msg))))) =
      (p1, lvl ++ (p2 ++ ']' :: (w3 ++ (procPart pc ++ msg)))) :=
    pRun_exact _ _ _ hp1
      (fun c hc => word_not_space c
        (head_cond_append pyIsWord true lvl _ hlvl.1 hlvl.2 c hc))
  have eLvl : pRun pyIsWord (lvl ++ (p2 ++ ']' ::
      (w3 ++ (procPart pc ++ msg)))) =
      (lvl, p2 ++ ']' :: (w3 ++ (procPart pc ++ msg))) :=
    pRun_exact _ _ _ hlvl.2
      (head_pred_of_append_cons pyIsWord p2 ']' _
        (fun c hc => (space_props c (hp2 c hc)).2.2.1) (by decide))
  have eP2 : pRun pyIsSpace (p2 ++ ']' ::
      (w3 ++ (procPart pc ++ msg))) =
      (p2, ']' :: (w3 ++ (procPart pc ++ msg))) :=
    pRun_exact _ _ _ hp2
      (head_pred_of_append_cons pyIsSpace [] ']' _ (by simp) (by decide))
  have eW3 : pRun pyIsSpace (w3 ++ (procPart pc ++ msg)) =
      (w3, procPart pc ++ msg) :=
    pRun_exact _ _ _ hw3.2 hPPhead
  have eMsg : matchDotStarEnd msg = some msg :=
    matchDotStarEnd_no_newline msg hmsg.2
  simp only [List.append_assoc, List.cons_append]
  cases pc with
  | none =>
      simp only [ProcClauseOk] at hpc
      simp only [procPart, List.nil_append] at *
      simp [syslogMatch, eIso, eW1, hw1e, eHost, hhoste, eW2, hw2e,
        expectChar_cons, eP1, eLvl, hlvle, eP2, eW3, hw3e, hpc, eMsg,
        pcGroups, hw1.1, hhost.1, hw2.1, hlvl.1, hw3.1]
  | some t =>
      obtain ⟨proc, pid, w4⟩ := t
      obtain ⟨hproc, hpid, hw4⟩ := hpc
      have eProc : matchProcClause (procPart (some (proc, pid, w4)) ++ msg) =
          some (proc, pid, msg) := by
        have h := matchProcClause_exact proc pid w4 msg hproc hpid hw4 hmsg.1
        simpa [procPart, List.append_assoc, List.cons_append] using h
      simp only [procPart, List.append_assoc, List.cons_append] at *
      simp [syslogMatch, eIso, eW1, hw1e, eHost, hhoste, eW2, hw2e,
        expectChar_cons, eP1, eLvl, hlvle, eP2, eW3, hw3e, eProc, eMsg,
        pcGroups, hw1.1, hhost.1, hw2.1, hlvl.1, hw3.1]

theorem pcGroups_process (pc : Option (List Char × Option (List Char) ×
    List Char)) : ((pcGroups pc).1).getD [] = pcProcess pc := by
  cases pc with
  | none => rfl
  | some t =>
      obtain ⟨a, b, c⟩ := t
      rfl

theorem pcGroups_pid (pc : Option (List Char × Option (List Char) ×
    List Char)) : ((pcGroups pc).2).map digitsToNat = pcPid pc := by
  cases pc with
  | none => rfl
  | some t =>
      obtain ⟨a, b, c⟩ := t
      cases b <;> rfl

theorem isoTimestampText_head (ts : List Char) (hts : IsoTimestampText ts) :
    ts ≠ [] ∧ ∀ c, ts.head? = some c → pyIsSpace c = false := by
  obtain ⟨y, mo, d, h, mi, s, frac, off, hy, _hmo, _hd, _hh, _hmi, _hs,
    _hf, _ho, rfl⟩ := hts
  have hyne : y ≠ [] := by
    intro h0
    rw [h0] at hy
    exact absurd hy.1 (by decide)
  simp only [List.append_assoc]
  constructor
  · simp [hyne]
  · intro c hc
    rw [head_of_append_of_ne_nil _ _ hyne] at hc
    cases y with
    | nil => exact absurd rfl hyne
    | cons a ys =>
        simp only [List.head?_cons, Option.some.injEq] at hc
        subst hc
        exact digit_not_space _ (hy.2 a (List.mem_cons_self _ _))

/-- **C5.** For every input line of the primary grammar's exact shape —
an ISO-8601 timestamp, whitespace, a hostname, whitespace, a bracketed
level token, whitespace, an optional process name with optional bracketed
numeric pid followed by a colon, and a message (whose boundaries are pinned
by the grammar's tokenization: the message neither begins nor ends with
whitespace, contains no newline, and, when the process clause is absent,
does not itself begin like a process clause, which the regex would
otherwise capture) — `parse_log_line` returns an entry whose hostname is
the (non-empty) hostname token, whose level is the normalization of the
captured level token (a member of the `LogLevel` enumeration), and whose
message equals the text after the closing colon; with the clause absent,
the entire remainder after the level bracket is the message. -/
theorem parse_log_line_primary_grammar (env : DateTimeEnv)
    (ts w1 host w2 p1 lvl p2 w3 msg : List Char)
    (pc : Option (List Char × Option (List Char) × List Char))
    (hts : IsoTimestampText ts) (hw1 : WsRun1 w1)
    (hhost : host ≠ [] ∧ ∀ c ∈ host, pyIsSpace c = false)
    (hw2 : WsRun1 w2) (hp1 : WsRun p1)
    (hlvl : lvl ≠ [] ∧ ∀ c ∈ lvl, pyIsWord c = true) (hp2 : WsRun p2)
    (hw3 : WsRun1 w3)
    (hmsg : msg ≠ [] ∧ (∀ c, msg.head? = some c → pyIsSpace c = false) ∧
      (∀ c, msg.getLast? = some c → pyIsSpace c = false) ∧ '\n' ∉ msg)
    (hpc : ProcClauseOk pc msg) :
    parse_log_line env (ts ++ w1 ++ host ++ w2 ++ '[' :: p1 ++ lvl ++ p2 ++
        ']' :: w3 ++ procPart pc ++ msg) =
      some { timestamp := (env.fromisoformat ts).getD env.now
           , hostname := host
           , level := parse_log_level lvl
           , process := pcProcess pc
           , pid := pcPid pc
           , message := msg
           , raw := ts ++ w1 ++ host ++ w2 ++ '[' :: p1 ++ lvl ++ p2 ++
               ']' :: w3 ++ procPart pc ++ msg } := by
  have hheadts := isoTimestampText_head ts hts
  have hhead : ∀ c, (ts ++ w1 ++ host ++ w2 ++ '[' :: p1 ++ lvl ++ p2 ++
      ']' :: w3 ++ procPart pc ++ msg).head? = some c →
      pyIsSpace c = false := by
    intro c hc
    simp only [List.append_assoc] at hc
    rw [head_of_append_of_ne_nil _ _ hheadts.1] at hc
    exact hheadts.2 c hc
  have hlast : ∀ c, (ts ++ w1 ++ host ++ w2 ++ '[' :: p1 ++ lvl ++ p2 ++
      ']' :: w3 ++ procPart pc ++ msg).getLast? = some c →
      pyIsSpace c = false := by
    intro c hc
    rw [List.getLast?_append_of_ne_nil _ hmsg.1] at hc
    exact hmsg.2.2.1 c hc
  have hstrip := pyStrip_eq_self _ hhead hlast
  have hLne : (ts ++ w1 ++ host ++ w2 ++ '[' :: p1 ++ lvl ++ p2 ++
      ']' :: w3 ++ procPart pc ++ msg) ≠ [] := by
    simp [hmsg.1]
  have hLe : (ts ++ w1 ++ host ++ w2 ++ '[' :: p1 ++ lvl ++ p2 ++
      ']' :: w3 ++ procPart pc ++ msg).isEmpty = false := by
    simp [hLne]
  have eSys := syslogMatch_exact ts w1 host w2 p1 lvl p2 w3 msg pc hts hw1
    hhost hw2 hp1 hlvl hp2 hw3 ⟨hmsg.2.1, hmsg.2.2.2⟩ hpc
  simp only [parse_log_line, hstrip, hLe, eSys, Bool.false_eq_true,
    if_false]
  simp [pcGroups_process, pcGroups_pid]

theorem parse_log_line_primary_grammar_witness :
    parse_log_line env0 ("2026-01-11T19:47:42".toList ++ [' '] ++
        "h".toList ++ [' '] ++ '[' :: [' '] ++ "INFO".toList ++ [' '] ++
        ']' :: [' '] ++
        procPart (some ("s".toList, some "1".toList, [' '])) ++
        "ok".toList) =
      some { timestamp :=
               (env0.fromisoformat "2026-01-11T19:47:42".toList).getD
                 env0.now
           , hostname := "h".toList
           , level := parse_log_level "INFO".toList
           , process := pcProcess (some ("s".toList, some "1".toList, [' ']))
           , pid := pcPid (some ("s".toList, some "1".toList, [' ']))
           , message := "ok".toList
           , raw := "2026-01-11T19:47:42".toList ++ [' '] ++ "h".toList ++
               [' '] ++ '[' :: [' '] ++ "INFO".toList ++ [' '] ++
               ']' :: [' '] ++
               procPart (some ("s".toList, some "1".toList, [' '])) ++
               "ok".toList } :=
  parse_log_line_primary_grammar env0 "2026-01-11T19:47:42".toList [' ']
    "h".toList [' '] [' '] "INFO".toList [' '] [' '] "ok".toList
    (some ("s".toList, some "1".toList, [' ']))
    ⟨"2026".toList, "01".toList, "11".toList, "19".toList, "47".toList,
      "42".toList, [], [], ⟨by decide, by decide⟩, ⟨by decide, by decide⟩,
      ⟨by decide, by decide⟩, ⟨by decide, by decide⟩, ⟨by decide, by decide⟩,
      ⟨by decide, by decide⟩, Or.inl rfl, Or.inl rfl, by decide⟩
    ⟨by decide, by decide⟩ ⟨by decide, by decide⟩ ⟨by decide, by decide⟩
    (by decide) ⟨by decide, by decide⟩ (by decide) ⟨by decide, by decide⟩
    ⟨by decide, by decide, by decide, by decide⟩
    ⟨⟨by decide, by decide⟩, fun ds hds => by
      injection hds with h
      subst h
      exact ⟨by decide, by decide⟩, by decide⟩

end UnifiCam
